import Mathlib

/-!
Verification of the InMAP air-quality model core (run.go and the cell/grid file).

The Go source is shallowly embedded: float64 values are idealised as exact
rationals, except where IEEE-754 special values (infinities, NaN) are
load-bearing, in which case we use the type `F` below, an exact-rational float
model with the three special values.  Go slices become `List`s, Go maps become
association lists, and panics become `Except.error`.
-/

namespace InMAP

/-! ### Chemical mass conversions (run.go, `const` block)

The Go literals (e.g. `46.0055`) denote decimal values; we embed them as the
corresponding exact rationals. -/

def mwNOx : ℚ := 46.0055
def mwN : ℚ := 14.0067
def mwNO3 : ℚ := 62.00501
def mwNH3 : ℚ := 17.03056
def mwNH4 : ℚ := 18.03851
def mwS : ℚ := 32.0655
def mwSO2 : ℚ := 64.0644
def mwSO4 : ℚ := 96.0632

def NOxToN : ℚ := mwN / mwNOx
def NtoNO3 : ℚ := mwNO3 / mwN
def SOxToS : ℚ := mwSO2 / mwS
def StoSO4 : ℚ := mwS / mwSO4
def NH3ToN : ℚ := mwN / mwNH3
def NtoNH4 : ℚ := mwNH4 / mwN

/-- run.go: `const tolerance = 0.005`, the convergence tolerance. -/
def tolerance : ℚ := 0.005

/-! ### Pollutant species indices (run.go, `igOrg, ipOrg, ... = 0, 1, ..., 8`) -/

def igOrg : Nat := 0
def ipOrg : Nat := 1
def iPM2_5 : Nat := 2
def igNH : Nat := 3
def ipNH : Nat := 4
def igS : Nat := 5
def ipS : Nat := 6
def igNO : Nat := 7
def ipNO : Nat := 8

/-- run.go: `polNames`, the names of the 9 modelled pollutant species. -/
def polNames : List String :=
  ["gOrg", "pOrg", "PM2_5", "gNH", "pNH", "gS", "pS", "gNO", "pNO"]

/-! ### A float64 model

`F` models an IEEE-754 double as either an exact rational (`F.fin`), one of the
two infinities, or NaN.  Rounding is idealised away (finite arithmetic is exact
rational arithmetic); the special-value propagation rules below follow IEEE-754,
which is what the Go `float64` operations in the source implement. -/

inductive F where
  | fin : ℚ → F
  | inf : F
  | ninf : F
  | nan : F
deriving DecidableEq, Repr

/-- IEEE-754 division restricted to the cases the embedded code can produce:
a finite numerator, or special values propagating.  Division of a nonzero
finite value by zero yields a signed infinity; `0/0` yields NaN. -/
def fdiv : F → F → F
  | F.fin a, F.fin b =>
      if b = 0 then
        if a = 0 then F.nan else if 0 < a then F.inf else F.ninf
      else F.fin (a / b)
  | F.nan, _ => F.nan
  | _, F.nan => F.nan
  | F.inf, F.fin b => if 0 ≤ b then F.inf else F.ninf
  | F.ninf, F.fin b => if 0 ≤ b then F.ninf else F.inf
  | F.fin _, F.inf => F.fin 0
  | F.fin _, F.ninf => F.fin 0
  | _, _ => F.nan

/-- IEEE-754 `math.Abs`. -/
def fabs : F → F
  | F.fin a => F.fin |a|
  | F.inf => F.inf
  | F.ninf => F.inf
  | F.nan => F.nan

/-- IEEE-754 strict less-than: any comparison involving NaN is false. -/
def flt : F → F → Bool
  | F.fin a, F.fin b => decide (a < b)
  | F.fin _, F.inf => true
  | F.ninf, F.fin _ => true
  | F.ninf, F.inf => true
  | _, _ => false

/-- IEEE-754 less-or-equal: any comparison involving NaN is false. -/
def fle : F → F → Bool
  | F.fin a, F.fin b => decide (a ≤ b)
  | F.fin _, F.inf => true
  | F.ninf, F.fin _ => true
  | F.ninf, F.inf => true
  | F.ninf, F.ninf => true
  | F.inf, F.inf => true
  | _, _ => false

/-- Go `math.IsInf(x, 0)`: true exactly on the two infinities (false on NaN). -/
def isInf : F → Bool
  | F.inf => true
  | F.ninf => true
  | _ => false

/-- Modelled from the spec: the repository's two-argument float minimum used by
`amin` ("taking the minimum over all cells and all bounds"); its definition is
not among the provided source files.  `fmin x y` keeps `x` unless `y` compares
strictly smaller, matching a running-minimum loop. -/
def fmin (x y : F) : F := if flt y x then y else x

/-- Modelled from the spec: the repository's two-argument float maximum used in
`setTstepCFL` ("max(normalized-speed_x, normalized-speed_y, normalized-speed_z)");
its definition is not among the provided source files. -/
def fmax (x y : F) : F := if flt x y then y else x

/-! ### Convergence check (run.go, `checkConvergence`)

```go
func checkConvergence(newSum, oldSum float64, Var string) bool {
    bias := (newSum - oldSum) / oldSum
    // (printing omitted)
    if math.Abs(bias) > tolerance || math.IsInf(bias, 0) {
        return false
    } else {
        return true
    }
}
```

The per-species sums are finite float64 values, embedded as rationals; the
subtraction of two finite values is finite, so only the division can produce a
special value.  The `Var` argument is used only for printing and is dropped.
`math.Abs(bias) > tolerance` is `flt tolerance (fabs bias)` (false when the
bias is NaN, per IEEE-754). -/
def checkConvergence (newSum oldSum : ℚ) : Bool :=
  let bias := fdiv (F.fin (newSum - oldSum)) (F.fin oldSum)
  if flt (F.fin tolerance) (fabs bias) || isInf bias then false else true

/-! ### The grid cell (struct `Cell`)

Scalar float64 fields are embedded as rationals, int fields as `Int`, slices as
lists, and the `PopData` Go map as an association list (a missing key reads as
the zero value, as in Go).  Defaults are the Go zero values, so a Lean
structure literal mentioning only some fields matches a Go composite literal.
The geometry fields, the embedded lock, and the unexported fields carry no
numeric state used by the claims and are omitted; the per-direction neighbor
lists, which in Go make `Cell` self-referential, are split into the separate
`CellNbrs` wrapper below. -/

structure Cell where
  UAvg : ℚ := 0
  VAvg : ℚ := 0
  WAvg : ℚ := 0
  UDeviation : ℚ := 0
  VDeviation : ℚ := 0
  AOrgPartitioning : ℚ := 0
  BOrgPartitioning : ℚ := 0
  SPartitioning : ℚ := 0
  NOPartitioning : ℚ := 0
  NHPartitioning : ℚ := 0
  SO2oxidation : ℚ := 0
  ParticleWetDep : ℚ := 0
  SO2WetDep : ℚ := 0
  OtherGasWetDep : ℚ := 0
  ParticleDryDep : ℚ := 0
  NH3DryDep : ℚ := 0
  SO2DryDep : ℚ := 0
  VOCDryDep : ℚ := 0
  NOxDryDep : ℚ := 0
  Kzz : ℚ := 0
  Kxxyy : ℚ := 0
  M2u : ℚ := 0
  M2d : ℚ := 0
  PopData : List (String × ℚ) := []
  MortalityRate : ℚ := 0
  Dx : ℚ := 0
  Dy : ℚ := 0
  Dz : ℚ := 0
  Volume : ℚ := 0
  Row : Int := 0
  Ci : List ℚ := []
  Cf : List ℚ := []
  emisFlux : List ℚ := []
  Boundary : Bool := false
  Layer : Int := 0
  LayerHeight : ℚ := 0
  Temperature : ℚ := 0
  WindSpeed : ℚ := 0
  WindSpeedInverse : ℚ := 0
  WindSpeedMinusThird : ℚ := 0
  WindSpeedMinusOnePointFour : ℚ := 0
  S1 : ℚ := 0
  SClass : ℚ := 0
  TotalPM25 : ℚ := 0

/-- A cell together with its per-direction neighbor lists.  In Go these lists
are `[]*Cell` fields of `Cell` itself; the split avoids a self-referential
structure and loses nothing the topology code reads, since `neighborInfo` only
reads scalar fields of the neighbors. -/
structure CellNbrs where
  c : Cell
  West : List Cell := []
  East : List Cell := []
  South : List Cell := []
  North : List Cell := []
  Below : List Cell := []
  Above : List Cell := []
  GroundLevel : List Cell := []

/-! ### Pollutant lookup tables (run.go) -/

/-- run.go: `EmisNames`, the pollutant names accepted as emissions. -/
def EmisNames : List String := ["VOC", "NOx", "NH3", "SOx", "PM2_5"]

/-- run.go: `emisLabels`, mapping output names of emissions variables to
species indices. -/
def emisLabels : List (String × Nat) :=
  [("VOC Emissions", igOrg), ("NOx emissions", igNO), ("NH3 emissions", igNH),
   ("SOx emissions", igS), ("PM2.5 emissions", iPM2_5)]

/-- run.go: `polConv`, species indices paired with conversion factors. -/
structure polConv where
  index : List Nat
  conversion : List ℚ
deriving DecidableEq, Repr

/-- run.go: the `"TotalPM2_5"` entry of `polLabels`: five species indices but
six conversion factors. -/
def totalPM25conv : polConv :=
  { index := [iPM2_5, ipOrg, ipNH, ipS, ipNO],
    conversion := [1, 1, 1, NtoNH4, StoSO4, NtoNO3] }

/-- run.go: `polLabels`, labels and conversions for concentration output. -/
def polLabels : List (String × polConv) :=
  [("TotalPM2_5", totalPM25conv),
   ("VOC", { index := [igOrg], conversion := [1] }),
   ("SOA", { index := [ipOrg], conversion := [1] }),
   ("PrimaryPM2_5", { index := [iPM2_5], conversion := [1] }),
   ("NH3", { index := [igNH], conversion := [1 / NH3ToN] }),
   ("pNH4", { index := [ipNH], conversion := [NtoNH4] }),
   ("SOx", { index := [igS], conversion := [1 / SOxToS] }),
   ("pSO4", { index := [ipS], conversion := [StoSO4] }),
   ("NOx", { index := [igNO], conversion := [1 / NOxToN] }),
   ("pNO3", { index := [ipNO], conversion := [NtoNO3] })]

/-- Modelled from the spec: `popNames`, the names of the population fields
attached to each cell.  Its defining file is not among the provided sources
(run.go and the cell file only consume it); the spec says only that there are
population variables, so one representative name is used. -/
def popNames : List String := ["TotalPop"]

/-- If `pat` is a prefix of `s`, the remainder of `s` after it; otherwise
`none`.  Helper for `replaceFirst`. -/
def dropPrefixChars : List Char → List Char → Option (List Char)
  | s, [] => some s
  | [], _ :: _ => none
  | c :: s, p :: ps => if c = p then dropPrefixChars s ps else none

/-- Character-level worker for `replaceFirst`: remove the first (leftmost)
occurrence of `pat` from `s`. -/
def replaceFirstChars (s pat : List Char) : List Char :=
  match s with
  | [] => []
  | c :: rest =>
    match dropPrefixChars (c :: rest) pat with
    | some tail => tail
    | none => c :: replaceFirstChars rest pat

/-- Go `strings.Replace(s, pat, "", 1)`: remove the first occurrence of `pat`
from `s` (the source only ever replaces by the empty string, with count 1). -/
def replaceFirst (s pat : String) : String :=
  String.mk (replaceFirstChars s.data pat.data)

/-- Modelled from the spec: `aqhealth.RRpm25Linear`, the external
concentration-response collaborator, "a pure function mapping a concentration
to a relative risk".  Its formula is out of scope (spec section 1); any total
function satisfies the contract, and no claim depends on its values. -/
def RRpm25Linear (conc : ℚ) : ℚ := 1 + conc

/-- Modelled from the spec: `aqhealth.Deaths`, the external collaborator
"mapping (relative risk, population, baseline rate) to an expected death
count".  As for `RRpm25Linear`, only totality matters to the claims. -/
def aqDeaths (rr pop rate : ℚ) : ℚ := (rr - 1) * pop * rate

/-- The concentration branch of `getValue`:
`for i, ii := range polConv.index { o += c.Cf[ii] * polConv.conversion[i] }`.
The loop pairs the two lists positionally and stops at the end of `index`;
every `polLabels` entry has `conversion` at least as long as `index`, so the
truncating zip is exact.  `getD` reads out of Go's `c.Cf[ii]`; well-formed
cells carry 9 entries, covering every index the tables mention. -/
def concSum (c : Cell) (pc : polConv) : ℚ :=
  (List.zipWith (fun ii conv => c.Cf.getD ii 0 * conv) pc.index pc.conversion).sum

/-- Go `c.PopData[v]`: a map read, yielding the zero value for a missing key. -/
def popRead (c : Cell) (v : String) : ℚ := ((c.PopData.lookup v).getD 0)

/-- The float64-typed fields of `Cell` addressable by name, as the reflection
fallback `reflect.Indirect(reflect.ValueOf(c)).FieldByName(varName).Float()`
sees them: `.Float()` succeeds exactly on fields of float kind. -/
def cellFloatField : String → Option (Cell → ℚ)
  | "UAvg" => some (fun c => c.UAvg)
  | "VAvg" => some (fun c => c.VAvg)
  | "WAvg" => some (fun c => c.WAvg)
  | "UDeviation" => some (fun c => c.UDeviation)
  | "VDeviation" => some (fun c => c.VDeviation)
  | "AOrgPartitioning" => some (fun c => c.AOrgPartitioning)
  | "BOrgPartitioning" => some (fun c => c.BOrgPartitioning)
  | "SPartitioning" => some (fun c => c.SPartitioning)
  | "NOPartitioning" => some (fun c => c.NOPartitioning)
  | "NHPartitioning" => some (fun c => c.NHPartitioning)
  | "SO2oxidation" => some (fun c => c.SO2oxidation)
  | "ParticleWetDep" => some (fun c => c.ParticleWetDep)
  | "SO2WetDep" => some (fun c => c.SO2WetDep)
  | "OtherGasWetDep" => some (fun c => c.OtherGasWetDep)
  | "ParticleDryDep" => some (fun c => c.ParticleDryDep)
  | "NH3DryDep" => some (fun c => c.NH3DryDep)
  | "SO2DryDep" => some (fun c => c.SO2DryDep)
  | "VOCDryDep" => some (fun c => c.VOCDryDep)
  | "NOxDryDep" => some (fun c => c.NOxDryDep)
  | "Kzz" => some (fun c => c.Kzz)
  | "Kxxyy" => some (fun c => c.Kxxyy)
  | "M2u" => some (fun c => c.M2u)
  | "M2d" => some (fun c => c.M2d)
  | "MortalityRate" => some (fun c => c.MortalityRate)
  | "Dx" => some (fun c => c.Dx)
  | "Dy" => some (fun c => c.Dy)
  | "Dz" => some (fun c => c.Dz)
  | "Volume" => some (fun c => c.Volume)
  | "LayerHeight" => some (fun c => c.LayerHeight)
  | "Temperature" => some (fun c => c.Temperature)
  | "WindSpeed" => some (fun c => c.WindSpeed)
  | "WindSpeedInverse" => some (fun c => c.WindSpeedInverse)
  | "WindSpeedMinusThird" => some (fun c => c.WindSpeedMinusThird)
  | "WindSpeedMinusOnePointFour" => some (fun c => c.WindSpeedMinusOnePointFour)
  | "S1" => some (fun c => c.S1)
  | "SClass" => some (fun c => c.SClass)
  | "TotalPM25" => some (fun c => c.TotalPM25)
  | _ => none

/-- All exported field names of the Go `Cell` struct, float-typed or not:
what `reflect.Value.FieldByName` can find at all. -/
def cellFieldNames : List String :=
  ["Polygonal", "WebMapGeom",
   "UAvg", "VAvg", "WAvg", "UDeviation", "VDeviation",
   "AOrgPartitioning", "BOrgPartitioning", "SPartitioning", "NOPartitioning",
   "NHPartitioning", "SO2oxidation",
   "ParticleWetDep", "SO2WetDep", "OtherGasWetDep", "ParticleDryDep",
   "NH3DryDep", "SO2DryDep", "VOCDryDep", "NOxDryDep",
   "Kzz", "KzzAbove", "KzzBelow", "Kxxyy", "KyySouth", "KyyNorth",
   "KxxWest", "KxxEast", "M2u", "M2d",
   "PopData", "MortalityRate", "Dx", "Dy", "Dz", "Volume", "Row",
   "Ci", "Cf", "emisFlux",
   "West", "East", "South", "North", "Below", "Above", "GroundLevel",
   "Boundary",
   "WestFrac", "EastFrac", "NorthFrac", "SouthFrac", "AboveFrac", "BelowFrac",
   "GroundLevelFrac",
   "DxPlusHalf", "DxMinusHalf", "DyPlusHalf", "DyMinusHalf", "DzPlusHalf",
   "DzMinusHalf",
   "Layer", "LayerHeight",
   "Temperature", "WindSpeed", "WindSpeedInverse", "WindSpeedMinusThird",
   "WindSpeedMinusOnePointFour", "S1", "SClass", "TotalPM25"]

/-- Source `(c *Cell) getValue(varName string) float64`: resolve a variable name on a
cell through the five namespaces, in source order.  The two panics of the
reflection fallback (`FieldByName` finding nothing, and `.Float()` on a field
that is not a float64) both abort the program and are both embedded as
`Except.error`.  The source's deaths branch calls `c.getValue("TotalPM2_5")`,
which resolves to the `polLabels` concentration entry; that call is inlined
(via `totalPM25conv`) to keep the recursion structural. -/
def getValue (c : Cell) (varName : String) : Except String ℚ :=
  match emisLabels.lookup varName with
  | some index => Except.ok (c.emisFlux.getD index 0)
  | none =>
  match polLabels.lookup varName with
  | some pc => Except.ok (concSum c pc)
  | none =>
  if varName ∈ popNames then
    Except.ok (popRead c varName / c.Dx / c.Dy)
  else if replaceFirst varName " deaths" ∈ popNames then
    let v := replaceFirst varName " deaths"
    let rr := RRpm25Linear (concSum c totalPM25conv)
    Except.ok (aqDeaths rr (popRead c v) c.MortalityRate)
  else
    match cellFloatField varName with
    | some f => Except.ok (f c)
    | none => Except.error ("reflect: cannot read float64 field " ++ varName)

/-- Run (run.go): the list of output variable names it extracts: every
`polLabels` key, every population name with its "` deaths`" companion, and
`"MortalityRate"` (Go map iteration order is unspecified; only membership
matters). -/
def outputVariables : List String :=
  polLabels.map Prod.fst
    ++ popNames.flatMap (fun pop => [pop, pop ++ " deaths"])
    ++ ["MortalityRate"]

/-- Run (run.go): the `switch pol` over emissions names, mapping each accepted
pollutant to its molecular-mass scale and species index and panicking on
anything else. -/
def emisSwitch (pol : String) : Except String (ℚ × Nat) :=
  if pol = "VOC" then Except.ok (1, igOrg)
  else if pol = "NOx" then Except.ok (NOxToN, igNO)
  else if pol = "NH3" then Except.ok (NH3ToN, igNH)
  else if pol = "SOx" then Except.ok (SOxToS, igS)
  else if pol = "PM2_5" then Except.ok (1, iPM2_5)
  else Except.error ("Unknown emissions pollutant " ++ pol)

/-! ### Output extraction (`toArray`)

```go
func (d *InMAPdata) toArray(pol string, layer int) []float64 {
    o := make([]float64, 0, len(d.Cells))
    for _, c := range d.Cells {
        c.RLock()
        if c.Layer > layer {
            return o            // early exit: no RUnlock on this path
        }
        if c.Layer == layer {
            o = append(o, c.getValue(pol))
        }
        c.RUnlock()
    }
    return o
}
```

The embedding instruments the read locks: it threads the multiset of cell
indices whose `RLock` is currently held and returns it alongside the result,
so lock leaks are visible in the return value.  A `getValue` panic is embedded
as an `Except.error` result (it, too, would leave the current lock held). -/
def toArrayAux (pol : String) (layer : Int) :
    List (Nat × Cell) → List ℚ → List Nat → Except String (List ℚ) × List Nat
  | [], o, held => (Except.ok o, held)
  | (i, c) :: rest, o, held =>
    let held1 := i :: held
    if layer < c.Layer then (Except.ok o, held1)
    else
      match (if c.Layer = layer then (getValue c pol).map (fun v => o ++ [v])
             else Except.ok o) with
      | Except.error e => (Except.error e, held1)
      | Except.ok o2 => toArrayAux pol layer rest o2 (held1.erase i)

/-- Source `toArray` over a cell list, returning the extracted values together with
the set of read locks still held at the moment the function returns. -/
def toArray (cells : List Cell) (pol : String) (layer : Int) :
    Except String (List ℚ) × List Nat :=
  toArrayAux pol layer cells.enum [] []

/-! ### Topology builder (`neighborInfo`) and interface diffusivity -/

/-- Source `func harmonicMean(a, b float64) float64 { return 2. * a * b / (a + b) }`
(finite inputs, embedded as exact rationals). -/
def harmonicMean (a b : ℚ) : ℚ := 2 * a * b / (a + b)

/-- Modelled from the spec: the repository's two-argument float64 `min` used by
`neighborInfo` ("overlap fraction = min(neighbor's cross-axis extent ÷ this
cell's same extent, 1)"); its definition is not among the provided source
files.  On the finite values `neighborInfo` feeds it, it is the ordinary
rational minimum. -/
def fmin2 (a b : ℚ) : ℚ := min a b

/-- Source `neighborInfo`, east direction: `c.EastFrac[i] = min(e.Dy/c.Dy, 1.)`. -/
def eastFrac (cn : CellNbrs) : List ℚ :=
  cn.East.map (fun e => fmin2 (e.Dy / cn.c.Dy) 1)

/-- Source `neighborInfo`, west direction: `c.WestFrac[i] = min(w.Dy/c.Dy, 1.)`. -/
def westFrac (cn : CellNbrs) : List ℚ :=
  cn.West.map (fun w => fmin2 (w.Dy / cn.c.Dy) 1)

/-- Source `neighborInfo`, north direction: `c.NorthFrac[i] = min(n.Dx/c.Dx, 1.)`. -/
def northFrac (cn : CellNbrs) : List ℚ :=
  cn.North.map (fun n => fmin2 (n.Dx / cn.c.Dx) 1)

/-- Source `neighborInfo`, south direction: `c.SouthFrac[i] = min(s.Dx/c.Dx, 1.)`. -/
def southFrac (cn : CellNbrs) : List ℚ :=
  cn.South.map (fun s => fmin2 (s.Dx / cn.c.Dx) 1)

/-- Source `neighborInfo`, above: `c.AboveFrac[i] = min((a.Dx*a.Dy)/(c.Dx*c.Dy), 1.)`. -/
def aboveFrac (cn : CellNbrs) : List ℚ :=
  cn.Above.map (fun a => fmin2 ((a.Dx * a.Dy) / (cn.c.Dx * cn.c.Dy)) 1)

/-- Source `neighborInfo`, below: `c.BelowFrac[i] = min((b.Dx*b.Dy)/(c.Dx*c.Dy), 1.)`. -/
def belowFrac (cn : CellNbrs) : List ℚ :=
  cn.Below.map (fun b => fmin2 ((b.Dx * b.Dy) / (cn.c.Dx * cn.c.Dy)) 1)

/-- Source `neighborInfo`, ground level:
`c.GroundLevelFrac[i] = min((g.Dx*g.Dy)/(c.Dx*c.Dy), 1.)`. -/
def groundLevelFrac (cn : CellNbrs) : List ℚ :=
  cn.GroundLevel.map (fun g => fmin2 ((g.Dx * g.Dy) / (cn.c.Dx * cn.c.Dy)) 1)

/-- All per-direction overlap fractions `neighborInfo` computes for one cell. -/
def allFracs (cn : CellNbrs) : List ℚ :=
  westFrac cn ++ eastFrac cn ++ northFrac cn ++ southFrac cn
    ++ aboveFrac cn ++ belowFrac cn ++ groundLevelFrac cn

/-! ### Timestep controller (`setTstepCFL`)

```go
func (d *InMAPdata) setTstepCFL() {
    const Cmax = 1.
    sqrt3 := math.Pow(3., 0.5)
    for i, c := range d.Cells {
        dt1 := Cmax / sqrt3 /
            max((math.Abs(c.UAvg)+c.UDeviation*2)/c.Dx,
                (math.Abs(c.VAvg)+c.VDeviation*2)/c.Dy,
                math.Abs(c.WAvg)/c.Dz)
        dt2 := Cmax * c.Dz * c.Dz / 2. / c.Kzz
        dt3 := Cmax * c.Dx * c.Dx / 2. / c.Kxxyy
        dt4 := Cmax * c.Dy * c.Dy / 2. / c.Kxxyy
        if i == 0 { d.Dt = amin(dt1, dt2, dt3, dt4) }
        else { d.Dt = amin(d.Dt, dt1, dt2, dt3, dt4) }
    }
}
```

Arithmetic on finite doubles is embedded as exact rational arithmetic inside
one `F.fin`; the divisions, which can produce infinities, use `fdiv`. -/

/-- Source `setTstepCFL`: `const Cmax = 1.`, the Courant number. -/
def Cmax : ℚ := 1

/-- Source `setTstepCFL`: `sqrt3 := math.Pow(3., 0.5)`.  Go's `math.Pow(x, 0.5)`
returns `math.Sqrt(x)`; this is the exact rational value of the correctly
rounded float64 square root of 3. -/
def sqrt3 : ℚ := 3900231685776981 / 2251799813685248

/-- The advective CFL bound `dt1` of `setTstepCFL`.  The numerators
`math.Abs(c.UAvg)+c.UDeviation*2` etc. are finite-double arithmetic, embedded
as one exact rational each; note the source takes the absolute value of each
mean wind and has no turbulent-deviation term along z. -/
def advectionBound (c : Cell) : F :=
  fdiv (fdiv (F.fin Cmax) (F.fin sqrt3))
    (fmax (fmax (fdiv (F.fin (|c.UAvg| + c.UDeviation * 2)) (F.fin c.Dx))
                (fdiv (F.fin (|c.VAvg| + c.VDeviation * 2)) (F.fin c.Dy)))
          (fdiv (F.fin |c.WAvg|) (F.fin c.Dz)))

/-- The vertical-diffusion (Von Neumann) bound `dt2` of `setTstepCFL`:
`Cmax * c.Dz * c.Dz / 2. / c.Kzz`. -/
def vertDiffBound (c : Cell) : F :=
  fdiv (F.fin (Cmax * c.Dz * c.Dz / 2)) (F.fin c.Kzz)

/-- The x horizontal-diffusion bound `dt3` of `setTstepCFL`:
`Cmax * c.Dx * c.Dx / 2. / c.Kxxyy`. -/
def horizDiffBoundX (c : Cell) : F :=
  fdiv (F.fin (Cmax * c.Dx * c.Dx / 2)) (F.fin c.Kxxyy)

/-- The y horizontal-diffusion bound `dt4` of `setTstepCFL`:
`Cmax * c.Dy * c.Dy / 2. / c.Kxxyy`. -/
def horizDiffBoundY (c : Cell) : F :=
  fdiv (F.fin (Cmax * c.Dy * c.Dy / 2)) (F.fin c.Kxxyy)

/-- Source `amin(dt1, dt2, dt3, dt4)`, one cell's contribution to the global minimum. -/
def cellDtBound (c : Cell) : F :=
  fmin (fmin (advectionBound c) (vertDiffBound c))
       (fmin (horizDiffBoundX c) (horizDiffBoundY c))

/-- Source `setTstepCFL` as a function from the cell list to the global `Dt` it
stores: the running minimum of every cell's four bounds, seeded by the first
cell (`i == 0`).  An empty domain leaves `d.Dt` at its Go zero value `0`. -/
def setTstepCFL (cells : List Cell) : F :=
  match cells with
  | [] => F.fin 0
  | c :: rest => rest.foldl (fun dt c2 => fmin dt (cellDtBound c2)) (cellDtBound c)

/-- A cell with every extent doubled and all other state unchanged. -/
def doubleCell (c : Cell) : Cell :=
  { c with Dx := 2 * c.Dx, Dy := 2 * c.Dy, Dz := 2 * c.Dz }

/-! ### Science scheduler (`Run` main loop and `doScience`)

```go
for procNum := 0; procNum < nprocs; procNum++ {
    funcChan[procNum] = make(chan func(*Cell, *InMAPdata), 1)
    go d.doScience(nprocs, procNum, funcChan[procNum], &wg)
}
...
for { // main loop
    wg.Add(len(scienceFuncs) * nprocs)
    for _, function := range scienceFuncs {
        for pp := 0; pp < nprocs; pp++ { funcChan[pp] <- function }
    }
    ... // wg.Wait() only when checking convergence or finishing
}

func (d *InMAPdata) doScience(nprocs, procNum int, funcChan chan ..., wg ...) {
    for f := range funcChan {
        for ii := procNum; ii < len(d.Data); ii += nprocs {
            c = d.Data[ii]
            c.Lock()
            if c.Layer <= topLayerToCalc { f(c, d) }
            c.Unlock()
        }
        wg.Done()
    }
}
```

Each worker `p` drains its own dedicated queue, receiving the operator list in
order and applying each operator to its statically striped cells
`p, p+nprocs, ...` in ascending order.  Nothing synchronises one worker's
progress with another's within an iteration: the controller's `wg.Wait()` runs
only at a convergence check or at termination, and a channel send can only
block the controller, never another worker.  An execution of one iteration is
therefore an arbitrary interleaving of the workers' fixed per-worker event
sequences.  An event `(p, k, i)` records worker `p` applying science operator
`k` to cell `i`. -/

/-- A scheduler event: (worker, operator index, cell index). -/
abbrev SchedEvent := Nat × Nat × Nat

/-- The cells statically assigned to worker `p` by
`for ii := procNum; ii < ncells; ii += nprocs`, in the order visited. -/
def workerCells (nprocs ncells p : Nat) : List Nat :=
  (List.range ncells).filter (fun i => i % nprocs = p)

/-- Worker `p`'s event sequence for one iteration: operators `0, ..., nops-1`
received in order from its queue, each applied to its cells in order. -/
def workerSeq (nprocs ncells nops p : Nat) : List SchedEvent :=
  (List.range nops).flatMap
    (fun k => (workerCells nprocs ncells p).map (fun i => (p, k, i)))

/-- All workers' per-iteration event sequences. -/
def schedLists (nprocs ncells nops : Nat) : List (List SchedEvent) :=
  (List.range nprocs).map (workerSeq nprocs ncells nops)

/-- Relation `Interleave ls zs`: `zs` is an interleaving of the lists in `ls`, i.e. a
merge preserving each list's internal order.  This is the set of possible
global event orders of the worker pool: each worker's own events happen in
program order, and beyond that any interleaving can occur. -/
inductive Interleave : List (List SchedEvent) → List SchedEvent → Prop
  | nil (ls : List (List SchedEvent)) : (∀ l ∈ ls, l = []) → Interleave ls []
  | cons (ls : List (List SchedEvent)) (i : Nat) (x : SchedEvent)
      (rest : List SchedEvent) (zs : List SchedEvent) :
      ls[i]? = some (x :: rest) → Interleave (ls.set i rest) zs →
      Interleave ls (x :: zs)

/-- A trace is phase-ordered when operator indices never decrease along it:
every application of operator `k` (by any worker, to any cell) precedes every
application of operator `k+1`. -/
def phaseOrdered (tr : List SchedEvent) : Prop :=
  tr.Pairwise (fun a b => a.2.1 ≤ b.2.1)

/-- A trace is per-worker phase-ordered when each single worker's operator
indices never decrease along it. -/
def perWorkerOrdered (tr : List SchedEvent) : Prop :=
  tr.Pairwise (fun a b => a.1 = b.1 → a.2.1 ≤ b.2.1)

instance (tr : List SchedEvent) : Decidable (phaseOrdered tr) := by
  unfold phaseOrdered; infer_instance

instance (tr : List SchedEvent) : Decidable (perWorkerOrdered tr) := by
  unfold perWorkerOrdered; infer_instance

/-- A short name for the all-defaults cell (every field at its Go zero value),
used as the concrete cell of several witnesses. -/
def zeroCell : Cell := {}

/-- Concrete one-neighbor topology used by the C8 witness: a 2×2×2 cell with a
single 1×1×1 eastern neighbor. -/
def cnEx : CellNbrs :=
  { c := { Dx := 2, Dy := 2, Dz := 2 },
    East := [{ Dx := 1, Dy := 1, Dz := 1 }] }

/-- Cell extents are strictly positive. -/
def posExt (c : Cell) : Prop := 0 < c.Dx ∧ 0 < c.Dy ∧ 0 < c.Dz

/-- All neighbors of a cell, across the seven direction lists. -/
def allNbrs (cn : CellNbrs) : List Cell :=
  cn.West ++ cn.East ++ cn.North ++ cn.South ++ cn.Above ++ cn.Below
    ++ cn.GroundLevel

/-- The advective-bound formula exactly as claim C3 words it: normalized speed
along *each* axis is `(mean wind + 2 × turbulent deviation) / cell extent`,
with the mean wind signed (no absolute value — the claim does not mention one).
The model carries no vertical turbulent-deviation field, so the z deviation
term is absent.  Compare with `advectionBound`, the source's computation. -/
def advectionBoundClaim (c : Cell) : F :=
  fdiv (fdiv (F.fin Cmax) (F.fin sqrt3))
    (fmax (fmax (fdiv (F.fin (c.UAvg + 2 * c.UDeviation)) (F.fin c.Dx))
                (fdiv (F.fin (c.VAvg + 2 * c.VDeviation)) (F.fin c.Dy)))
          (fdiv (F.fin c.WAvg) (F.fin c.Dz)))

/-- The maximum over the three axes of the normalized speed, at the rational
level, as the amended claim C3 words it: `(|mean wind| + 2 × deviation) /
extent` along x and y, `|mean wind| / extent` along z. -/
def normMax (c : Cell) : ℚ :=
  max (max ((|c.UAvg| + 2 * c.UDeviation) / c.Dx)
           ((|c.VAvg| + 2 * c.VDeviation) / c.Dy))
      (|c.WAvg| / c.Dz)

/-- The advective bound as the amended claim C3 words it: `Courant / sqrt(3)`
divided by the normalized-speed maximum, infinite when that maximum is zero. -/
def advectionBoundAmended (c : Cell) : F :=
  if normMax c = 0 then F.inf else F.fin (Cmax / sqrt3 / normMax c)

/-- C4 counterexample cell: unit extents, calm winds, horizontal diffusivity
1, and vertical diffusivity −1 (non-positive, as the claim quantifies). -/
def c4bad : Cell := { Dx := 1, Dy := 1, Dz := 1, Kzz := -1, Kxxyy := 1 }

/-- A cell with positive extents, nonnegative turbulence deviations and
nonnegative (possibly zero) diffusivities: the amended C4 hypothesis. -/
def goodCell (c : Cell) : Prop :=
  0 < c.Dx ∧ 0 < c.Dy ∧ 0 < c.Dz ∧ 0 ≤ c.UDeviation ∧ 0 ≤ c.VDeviation ∧
    0 ≤ c.Kzz ∧ 0 ≤ c.Kxxyy

/-- An `F` value that is either positive infinity or a strictly positive
finite value — in particular not NaN, not zero, not negative. -/
def PosOrInf (x : F) : Prop := x = F.inf ∨ ∃ q : ℚ, 0 < q ∧ x = F.fin q

/-- A cell whose extents, winds, deviations and diffusivities are all finite
and strictly positive: the C6 hypothesis. -/
def goodPos (c : Cell) : Prop :=
  0 < c.Dx ∧ 0 < c.Dy ∧ 0 < c.Dz ∧ 0 < c.UAvg ∧ 0 < c.VAvg ∧ 0 < c.WAvg ∧
    0 < c.UDeviation ∧ 0 < c.VDeviation ∧ 0 < c.Kzz ∧ 0 < c.Kxxyy

/-- Source `dt1` at the rational level (defined for cells where `normMax` is
nonzero). -/
def qAdv (c : Cell) : ℚ := Cmax / sqrt3 / normMax c

/-- Source `dt2` at the rational level (defined for cells with nonzero `Kzz`). -/
def qVert (c : Cell) : ℚ := Cmax * c.Dz * c.Dz / 2 / c.Kzz

/-- Source `dt3` at the rational level. -/
def qHx (c : Cell) : ℚ := Cmax * c.Dx * c.Dx / 2 / c.Kxxyy

/-- Source `dt4` at the rational level. -/
def qHy (c : Cell) : ℚ := Cmax * c.Dy * c.Dy / 2 / c.Kxxyy

/-- Source `amin(dt1, dt2, dt3, dt4)` at the rational level. -/
def qCell (c : Cell) : ℚ := min (min (qAdv c) (qVert c)) (min (qHx c) (qHy c))

/-- C6 witness cell: all physical quantities equal to 1. -/
def c6cell : Cell :=
  { Dx := 1, Dy := 1, Dz := 1, UAvg := 1, VAvg := 1, WAvg := 1,
    UDeviation := 1, VDeviation := 1, Kzz := 1, Kxxyy := 1 }

/-- C2 counterexample trace: worker 0 applies both operators to its cell
before worker 1 has applied operator 0 to its cell (2 workers, 2 cells, 2
operators).  Realizable in the source: worker 0 can drain its own channel and
run both functions while worker 1's goroutine has not yet been scheduled;
nothing blocks it, since `wg.Wait()` is not called between operators. -/
def badTrace : List SchedEvent := [(0, 0, 0), (0, 1, 0), (1, 0, 1), (1, 1, 1)]

/-! ## Claim theorems -/

/-- Helper for C8: a ratio of positives clipped at 1 lies in (0, 1]. -/
theorem fmin2_div_unit {x y : ℚ} (hx : 0 < x) (hy : 0 < y) :
    0 < fmin2 (x / y) 1 ∧ fmin2 (x / y) 1 ≤ 1 :=
  ⟨lt_min (div_pos hx hy) one_pos, min_le_right _ _⟩

/-- Claim C9: for a, b > 0 the interface-diffusivity function
`harmonicMean(a,b) = 2ab/(a+b)` is symmetric, fixes the diagonal
(`harmonicMean(a,a) = a`), and is bounded by twice the smaller argument. -/
theorem harmonicMean_spec (a b : ℚ) (ha : 0 < a) (hb : 0 < b) :
    harmonicMean a b = harmonicMean b a ∧ harmonicMean a a = a ∧
    harmonicMean a b ≤ 2 * min a b := by
  refine ⟨by unfold harmonicMean; ring, ?_, ?_⟩
  · unfold harmonicMean
    rw [div_eq_iff (by positivity)]
    ring
  · unfold harmonicMean
    rw [div_le_iff₀ (by positivity)]
    rcases le_total a b with h | h
    · rw [min_eq_left h]; nlinarith
    · rw [min_eq_right h]; nlinarith

/-- Witness for C9 at (a, b) = (2, 3). -/
theorem harmonicMean_spec_witness :
    harmonicMean 2 3 = harmonicMean 3 2 ∧ harmonicMean 2 2 = 2 ∧
    harmonicMean 2 3 ≤ 2 * min 2 3 :=
  harmonicMean_spec 2 3 (by norm_num) (by norm_num)

/-- Claim C8: for a cell with strictly positive extents whose neighbors all
have strictly positive extents, every per-direction overlap fraction computed
by `neighborInfo` (`WestFrac`, `EastFrac`, `NorthFrac`, `SouthFrac`,
`AboveFrac`, `BelowFrac`, `GroundLevelFrac`) lies in (0, 1]. -/
theorem neighbor_fracs_unit (cn : CellNbrs) (hc : posExt cn.c)
    (hn : ∀ n ∈ allNbrs cn, posExt n) :
    ∀ q ∈ allFracs cn, 0 < q ∧ q ≤ 1 := by
  obtain ⟨hx, hy, _⟩ := hc
  intro q hq
  have hnb : ∀ n ∈ allNbrs cn, 0 < n.Dx ∧ 0 < n.Dy := by
    intro n hn2
    obtain ⟨h1, h2, _⟩ := hn n hn2
    exact ⟨h1, h2⟩
  simp only [allFracs, List.mem_append] at hq
  rcases hq with ((((((hq | hq) | hq) | hq) | hq) | hq) | hq) <;>
    simp only [westFrac, eastFrac, northFrac, southFrac, aboveFrac, belowFrac,
      groundLevelFrac, List.mem_map] at hq <;>
    obtain ⟨n, hmem, rfl⟩ := hq
  · exact fmin2_div_unit (hnb n (by simp [allNbrs, hmem])).2 hy
  · exact fmin2_div_unit (hnb n (by simp [allNbrs, hmem])).2 hy
  · exact fmin2_div_unit (hnb n (by simp [allNbrs, hmem])).1 hx
  · exact fmin2_div_unit (hnb n (by simp [allNbrs, hmem])).1 hx
  · have h := hnb n (by simp [allNbrs, hmem])
    exact fmin2_div_unit (mul_pos h.1 h.2) (mul_pos hx hy)
  · have h := hnb n (by simp [allNbrs, hmem])
    exact fmin2_div_unit (mul_pos h.1 h.2) (mul_pos hx hy)
  · have h := hnb n (by simp [allNbrs, hmem])
    exact fmin2_div_unit (mul_pos h.1 h.2) (mul_pos hx hy)

/-- Witness for C8: the single eastern overlap fraction of `cnEx` is in (0,1]. -/
theorem neighbor_fracs_unit_witness :
    0 < fmin2 ((1 : ℚ) / 2) 1 ∧ fmin2 ((1 : ℚ) / 2) 1 ≤ 1 := by
  have h := neighbor_fracs_unit cnEx
    (by constructor <;> norm_num [cnEx])
    (by intro n hn
        simp only [cnEx, allNbrs, List.append_nil, List.nil_append,
          List.mem_singleton] at hn
        subst hn
        constructor <;> norm_num [posExt])
  exact h (fmin2 ((1 : ℚ) / 2) 1)
    (by simp [cnEx, allFracs, westFrac, eastFrac, northFrac, southFrac,
          aboveFrac, belowFrac, groundLevelFrac])

/-- Claim C10: `getValue("TotalPM2_5")` pairs conversion coefficients with
species indices positionally, yielding exactly
`Cf[iPM2_5]*1 + Cf[ipOrg]*1 + Cf[ipNH]*1 + Cf[ipS]*NtoNH4 + Cf[ipNO]*StoSO4`;
the index list has five entries and the conversion list six, so the sixth
coefficient `NtoNO3` is applied to no species. -/
theorem getValue_TotalPM25 (c : Cell) :
    getValue c "TotalPM2_5" =
      Except.ok (c.Cf.getD iPM2_5 0 * 1 + c.Cf.getD ipOrg 0 * 1
        + c.Cf.getD ipNH 0 * 1 + c.Cf.getD ipS 0 * NtoNH4
        + c.Cf.getD ipNO 0 * StoSO4)
    ∧ totalPM25conv.index.length = 5 ∧ totalPM25conv.conversion.length = 6 := by
  refine ⟨?_, by decide, by decide⟩
  have h : getValue c "TotalPM2_5" = Except.ok (concSum c totalPM25conv) := rfl
  rw [h, Except.ok.injEq]
  simp only [concSum, totalPM25conv, List.zipWith, List.sum_cons, List.sum_nil]
  ring

/-- Claim C1 counterexample: with a prior sum of 0 and a new sum of 0 the
ratio is NaN (0/0), which fails both the `> tolerance` test and the `IsInf`
test, so `checkConvergence` declares the species converged — contradicting
"non-convergent regardless of the new value" and "converged only if the
relative change is finite". -/
theorem checkConvergence_nan_converges : checkConvergence 0 0 = true := by
  norm_num [checkConvergence, fdiv, fabs, flt, isInf, tolerance]

/-- Claim C1, amended: `checkConvergence` returns true iff the relative change
`(newSum - oldSum)/oldSum` is neither an infinity nor greater than the
tolerance 0.005 in absolute value; concretely, for a prior sum of 0 it returns
false for every nonzero new sum (the ratio is ±∞) but true for a new sum of 0
(the ratio is NaN, which passes both tests). -/
theorem checkConvergence_characterization (n o : ℚ) :
    checkConvergence n o = true ↔
      (if o = 0 then n = 0 else |(n - o) / o| ≤ tolerance) := by
  by_cases ho : o = 0
  · subst ho
    by_cases hn : n = 0
    · subst hn
      simp [checkConvergence, fdiv, fabs, flt, isInf]
    · rcases lt_trichotomy n 0 with h | h | h
      · simp [checkConvergence, fdiv, fabs, flt, isInf, sub_zero, hn,
          not_lt_of_gt h, h]
      · exact absurd h hn
      · simp [checkConvergence, fdiv, fabs, flt, isInf, sub_zero, hn, h]
  · simp [checkConvergence, fdiv, fabs, flt, isInf, ho, not_lt]

/-- Claim C5: evaluating `toArray` at a two-cell list (layers 0 and 1,
pre-sorted) with requested layer 0: the traversal reads the first cell,
releases its lock, then takes the second cell's read lock, sees `Layer >
layer`, and returns through the early exit still holding that lock — the
returned held-lock set is `[1]`, not empty.  The claim that every acquired
read lock is released on every path is exactly what fails here. -/
theorem toArray_leaks_lock_on_early_exit :
    (toArray [{ Layer := 0, Cf := [0, 0, 0, 0, 0, 0, 0, 0, 0] },
              { Layer := 1 }] "VOC" 0).2 = [1] := by
  decide

/-- Claim C7 counterexample: `"Layer"` names a field of the `Cell` struct, yet
requesting it still aborts: `reflect.Value.Float()` panics on the int-typed
field.  So the fallback path aborts in more cases than "name matching no
field". -/
theorem getValue_matching_field_aborts :
    "Layer" ∈ cellFieldNames ∧ (getValue zeroCell "Layer").isOk = false := by
  decide

/-- Claim C7, amended: the emissions switch aborts exactly on pollutant names
outside `EmisNames`; every output variable `Run` requests resolves without
error; and a name reaching the reflection fallback aborts exactly when it does
not resolve to a float64-typed field of `Cell` — a name matching a non-float
field (such as `"Layer"`) also aborts, not only names matching no field. -/
theorem name_resolution_amended :
    (∀ pol, (emisSwitch pol).isOk = true ↔ pol ∈ EmisNames) ∧
    (∀ c : Cell, ∀ v ∈ outputVariables, (getValue c v).isOk = true) ∧
    (∀ (c : Cell) (v : String),
      emisLabels.lookup v = none → polLabels.lookup v = none →
      v ∉ popNames → replaceFirst v " deaths" ∉ popNames →
      ((getValue c v).isOk = false ↔ cellFloatField v = none)) := by
  refine ⟨?_, ?_, ?_⟩
  · intro pol
    simp only [emisSwitch, EmisNames]
    split_ifs with h1 h2 h3 h4 h5 <;> simp_all [Except.isOk, Except.toBool]
  · intro c v hv
    simp only [outputVariables, polLabels, popNames, totalPM25conv,
      List.map_cons, List.map_nil, List.flatMap_cons, List.flatMap_nil,
      List.append_nil, List.cons_append, List.nil_append, List.mem_cons,
      List.mem_singleton, List.not_mem_nil, or_false] at hv
    rcases hv with rfl | rfl | rfl | rfl | rfl | rfl | rfl | rfl | rfl | rfl
      | rfl | rfl | rfl <;> rfl
  · intro c v h1 h2 h3 h4
    unfold getValue
    rw [h1, h2, if_neg h3, if_neg h4]
    rcases hf : cellFloatField v with _ | f <;>
      simp [hf, Except.isOk, Except.toBool]

/-- Witness for C7 at the output variable `"TotalPM2_5"` and the all-defaults
cell. -/
theorem name_resolution_amended_witness :
    (getValue zeroCell "TotalPM2_5").isOk = true :=
  name_resolution_amended.2.1 zeroCell "TotalPM2_5" (by decide)

/-! Bridging lemmas between the `F` computations of `setTstepCFL` and their
rational values, shared by the timestep claims. -/

theorem fdiv_fin_fin {a b : ℚ} (hb : b ≠ 0) :
    fdiv (F.fin a) (F.fin b) = F.fin (a / b) := by
  simp [fdiv, hb]

theorem fdiv_fin_zero_pos {a : ℚ} (ha : 0 < a) :
    fdiv (F.fin a) (F.fin 0) = F.inf := by
  simp [fdiv, ne_of_gt ha, ha]

theorem fmax_fin_fin (a b : ℚ) : fmax (F.fin a) (F.fin b) = F.fin (max a b) := by
  rcases lt_or_ge a b with h | h
  · simp [fmax, flt, h, max_eq_right h.le]
  · simp [fmax, flt, not_lt_of_ge h, max_eq_left h]

theorem fmin_fin_fin (a b : ℚ) : fmin (F.fin a) (F.fin b) = F.fin (min a b) := by
  rcases lt_or_ge b a with h | h
  · simp [fmin, flt, h, min_eq_right h.le]
  · simp [fmin, flt, not_lt_of_ge h, min_eq_left h]

theorem fmin_fin_inf (q : ℚ) : fmin (F.fin q) F.inf = F.fin q := by
  simp [fmin, flt]

theorem fmin_inf_fin (q : ℚ) : fmin F.inf (F.fin q) = F.fin q := by
  simp [fmin, flt]

theorem sqrt3_pos : (0 : ℚ) < sqrt3 := by norm_num [sqrt3]

theorem coef_pos : (0 : ℚ) < Cmax / sqrt3 := by norm_num [Cmax, sqrt3]

/-- Under positive extents, the source's advective bound computation reduces
to a single division by the rational normalized-speed maximum. -/
theorem advectionBound_reduce (c : Cell) (hx : 0 < c.Dx) (hy : 0 < c.Dy)
    (hz : 0 < c.Dz) :
    advectionBound c = fdiv (F.fin (Cmax / sqrt3)) (F.fin (normMax c)) := by
  unfold advectionBound
  have e1 : |c.UAvg| + c.UDeviation * 2 = |c.UAvg| + 2 * c.UDeviation := by ring
  have e2 : |c.VAvg| + c.VDeviation * 2 = |c.VAvg| + 2 * c.VDeviation := by ring
  rw [e1, e2, fdiv_fin_fin (ne_of_gt sqrt3_pos), fdiv_fin_fin (ne_of_gt hx),
    fdiv_fin_fin (ne_of_gt hy), fdiv_fin_fin (ne_of_gt hz), fmax_fin_fin,
    fmax_fin_fin, normMax]

/-- Claim C3 counterexample: on a cell with westward mean wind (`UAvg = -3`)
and unit extents, the source computes a finite advective bound (it takes
`math.Abs` of the mean wind) while the claim's literal formula, with the
signed mean wind, has a zero normalized-speed maximum and an infinite bound. -/
theorem advection_bound_ne_claim_literal :
    advectionBound { UAvg := -3, Dx := 1, Dy := 1, Dz := 1 } ≠
      advectionBoundClaim { UAvg := -3, Dx := 1, Dy := 1, Dz := 1 } := by
  have ha : |(-3 : ℚ)| = 3 := by
    rw [abs_of_nonpos] <;> norm_num
  norm_num [advectionBound, advectionBoundClaim, fdiv, fmax, flt, Cmax,
    sqrt3, ha]
  intro h
  exact F.noConfusion h

/-- Claim C3, amended: for every cell with positive extents, the advective
bound equals `Courant / sqrt(3)` divided by the maximum over the three axes of
the normalized speed, where the normalized speed is
`(|mean wind| + 2 × turbulent deviation) / extent` along x and y and
`|mean wind| / extent` along z (the model has no vertical deviation term), the
bound being infinite when that maximum is zero. -/
theorem advection_bound_amended (c : Cell) (hx : 0 < c.Dx) (hy : 0 < c.Dy)
    (hz : 0 < c.Dz) :
    advectionBound c = advectionBoundAmended c := by
  rw [advectionBound_reduce c hx hy hz, advectionBoundAmended]
  by_cases hm : normMax c = 0
  · rw [hm, if_pos rfl, fdiv_fin_zero_pos coef_pos]
  · rw [if_neg hm, fdiv_fin_fin hm]

/-- Witness for C3 at a concrete cell with positive extents. -/
theorem advection_bound_amended_witness :
    advectionBound { UAvg := 2, Dx := 1, Dy := 1, Dz := 1 } =
      advectionBoundAmended { UAvg := 2, Dx := 1, Dy := 1, Dz := 1 } :=
  advection_bound_amended _ (by norm_num) (by norm_num) (by norm_num)

/-- Claim C4 counterexample: `c4bad` has non-positive (strictly negative)
vertical diffusivity, yet its vertical stability bound is the finite value
−1/2, not an infinity, and far from being excluded it becomes the global `Dt`:
the minimum over the cell's bounds is −1/2. -/
theorem negative_diffusivity_bound_included :
    c4bad.Kzz ≤ 0 ∧ vertDiffBound c4bad = F.fin (-(1 / 2)) ∧
      setTstepCFL [c4bad] = F.fin (-(1 / 2)) := by
  have hvert : vertDiffBound c4bad = F.fin (-(1 / 2)) := by
    unfold vertDiffBound
    rw [fdiv_fin_fin (by norm_num [c4bad] : (c4bad.Kzz : ℚ) ≠ 0)]
    norm_num [c4bad, Cmax]
  refine ⟨by norm_num [c4bad], hvert, ?_⟩
  show cellDtBound c4bad = F.fin (-(1 / 2))
  have hadv : advectionBound c4bad = F.inf := by
    rw [advectionBound_reduce c4bad (by norm_num [c4bad]) (by norm_num [c4bad])
      (by norm_num [c4bad])]
    have hm : normMax c4bad = 0 := by norm_num [normMax, c4bad]
    rw [hm]
    exact fdiv_fin_zero_pos coef_pos
  have hhx : horizDiffBoundX c4bad = F.fin (1 / 2) := by
    unfold horizDiffBoundX
    rw [fdiv_fin_fin (by norm_num [c4bad] : (c4bad.Kxxyy : ℚ) ≠ 0)]
    norm_num [c4bad, Cmax]
  have hhy : horizDiffBoundY c4bad = F.fin (1 / 2) := by
    unfold horizDiffBoundY
    rw [fdiv_fin_fin (by norm_num [c4bad] : (c4bad.Kxxyy : ℚ) ≠ 0)]
    norm_num [c4bad, Cmax]
  unfold cellDtBound
  rw [hadv, hvert, hhx, hhy, fmin_inf_fin, fmin_fin_fin, fmin_fin_fin]
  norm_num [min_def]

/-- Helper for C4: a positive finite numerator divided by a nonnegative finite
denominator is positive-or-infinite. -/
theorem fdiv_pos_nonneg {a b : ℚ} (ha : 0 < a) (hb : 0 ≤ b) :
    PosOrInf (fdiv (F.fin a) (F.fin b)) := by
  rcases eq_or_lt_of_le hb with h | h
  · left
    rw [← h, fdiv_fin_zero_pos ha]
  · right
    exact ⟨a / b, div_pos ha h, by rw [fdiv_fin_fin (ne_of_gt h)]⟩

/-- Helper for C4: `fmin` of positive-or-infinite values is
positive-or-infinite (infinities drop out of the minimum, positives stay
positive). -/
theorem fmin_posOrInf {x y : F} (hx : PosOrInf x) (hy : PosOrInf y) :
    PosOrInf (fmin x y) := by
  rcases hx with rfl | ⟨p, hp, rfl⟩ <;> rcases hy with rfl | ⟨q, hq, rfl⟩
  · left; rfl
  · right; exact ⟨q, hq, fmin_inf_fin q⟩
  · right; exact ⟨p, hp, fmin_fin_inf p⟩
  · right
    exact ⟨min p q, lt_min hp hq, fmin_fin_fin p q⟩

/-- Helper for C4: under `goodCell` hypotheses each of the four per-cell
bounds is positive or infinite, hence so is `amin` of them. -/
theorem cellDtBound_posOrInf (c : Cell) (hg : goodCell c) :
    PosOrInf (cellDtBound c) := by
  obtain ⟨hx, hy, hz, hdu, hdv, hkz, hkh⟩ := hg
  have hadv : PosOrInf (advectionBound c) := by
    rw [advectionBound_reduce c hx hy hz]
    refine fdiv_pos_nonneg coef_pos ?_
    have h1 : 0 ≤ |c.WAvg| / c.Dz := div_nonneg (abs_nonneg _) hz.le
    exact le_trans h1 (le_max_right _ _)
  have hvert : PosOrInf (vertDiffBound c) := by
    unfold vertDiffBound
    refine fdiv_pos_nonneg ?_ hkz
    have := mul_pos hz hz
    unfold Cmax
    nlinarith
  have hhx : PosOrInf (horizDiffBoundX c) := by
    unfold horizDiffBoundX
    refine fdiv_pos_nonneg ?_ hkh
    have := mul_pos hx hx
    unfold Cmax
    nlinarith
  have hhy : PosOrInf (horizDiffBoundY c) := by
    unfold horizDiffBoundY
    refine fdiv_pos_nonneg ?_ hkh
    have := mul_pos hy hy
    unfold Cmax
    nlinarith
  exact fmin_posOrInf (fmin_posOrInf hadv hvert) (fmin_posOrInf hhx hhy)

/-- Helper for C4: folding `fmin` of per-cell bounds over good cells preserves
positivity-or-infiniteness of the accumulator. -/
theorem foldl_fmin_posOrInf (l : List Cell) :
    ∀ acc : F, PosOrInf acc → (∀ x ∈ l, goodCell x) →
      PosOrInf (l.foldl (fun dt c2 => fmin dt (cellDtBound c2)) acc) := by
  induction l with
  | nil =>
    intro acc hacc _
    exact hacc
  | cons d ds ih =>
    intro acc hacc hl
    rw [List.foldl_cons]
    exact ih _
      (fmin_posOrInf hacc (cellDtBound_posOrInf d (hl d (List.mem_cons_self d ds))))
      (fun x hx => hl x (List.mem_cons_of_mem d hx))

/-- Claim C4, amended: with positive extents, a *zero* diffusivity makes the
corresponding diffusion bound positive infinity, and a cell at rest (zero
winds and deviations) makes the advective bound positive infinity; such
infinite terms are excluded from the running minimum (`amin` of an infinity
and a finite value keeps the finite value); and over any domain of cells with
positive extents and *nonnegative* deviations and diffusivities the global
`Dt` is positive or infinite — never zero, NaN, or an error.  (A strictly
negative diffusivity, by contrast, contributes a finite negative bound that is
*not* excluded, as the counterexample shows.) -/
theorem tstep_degenerate_amended :
    (∀ c : Cell, 0 < c.Dz → c.Kzz = 0 → vertDiffBound c = F.inf) ∧
    (∀ c : Cell, 0 < c.Dx → c.Kxxyy = 0 → horizDiffBoundX c = F.inf) ∧
    (∀ c : Cell, 0 < c.Dy → c.Kxxyy = 0 → horizDiffBoundY c = F.inf) ∧
    (∀ c : Cell, 0 < c.Dx → 0 < c.Dy → 0 < c.Dz →
      c.UAvg = 0 → c.VAvg = 0 → c.WAvg = 0 → c.UDeviation = 0 →
      c.VDeviation = 0 → advectionBound c = F.inf) ∧
    (∀ q : ℚ, fmin (F.fin q) F.inf = F.fin q ∧ fmin F.inf (F.fin q) = F.fin q) ∧
    (∀ cells : List Cell, cells ≠ [] → (∀ c ∈ cells, goodCell c) →
      PosOrInf (setTstepCFL cells)) := by
  refine ⟨?_, ?_, ?_, ?_, ?_, ?_⟩
  · intro c hz hk
    unfold vertDiffBound
    rw [hk]
    refine fdiv_fin_zero_pos ?_
    have := mul_pos hz hz
    unfold Cmax
    nlinarith
  · intro c hx hk
    unfold horizDiffBoundX
    rw [hk]
    refine fdiv_fin_zero_pos ?_
    have := mul_pos hx hx
    unfold Cmax
    nlinarith
  · intro c hy hk
    unfold horizDiffBoundY
    rw [hk]
    refine fdiv_fin_zero_pos ?_
    have := mul_pos hy hy
    unfold Cmax
    nlinarith
  · intro c hx hy hz hu hv hw hdu hdv
    rw [advectionBound_reduce c hx hy hz]
    have hm : normMax c = 0 := by
      unfold normMax
      rw [hu, hv, hw, hdu, hdv]
      norm_num
    rw [hm]
    exact fdiv_fin_zero_pos coef_pos
  · intro q
    exact ⟨fmin_fin_inf q, fmin_inf_fin q⟩
  · intro cells hne hg
    match cells with
    | [] => exact absurd rfl hne
    | c :: rest =>
      exact foldl_fmin_posOrInf rest (cellDtBound c)
        (cellDtBound_posOrInf c (hg c (List.mem_cons_self c rest)))
        (fun x hx => hg x (List.mem_cons_of_mem c hx))

/-- Helper for C6: `goodPos` survives doubling the extents. -/
theorem goodPos_double (c : Cell) (h : goodPos c) : goodPos (doubleCell c) := by
  obtain ⟨hx, hy, hz, hu, hv, hw, hdu, hdv, hkz, hkh⟩ := h
  refine ⟨?_, ?_, ?_, ?_, ?_, ?_, ?_, ?_, ?_, ?_⟩ <;>
    simp only [doubleCell] <;> linarith

/-- Helper for C6: under `goodPos` the normalized-speed maximum is positive. -/
theorem normMax_pos (c : Cell) (h : goodPos c) : 0 < normMax c := by
  obtain ⟨hx, _, _, _, _, _, hdu, _, _, _⟩ := h
  have h1 : 0 < (|c.UAvg| + 2 * c.UDeviation) / c.Dx :=
    div_pos (add_pos_of_nonneg_of_pos (abs_nonneg _) (by linarith)) hx
  exact lt_of_lt_of_le h1 (le_trans (le_max_left _ _) (le_max_left _ _))

/-- Helper for C6: doubling the extents can only shrink the normalized-speed
maximum. -/
theorem normMax_double_le (c : Cell) (h : goodPos c) :
    normMax (doubleCell c) ≤ normMax c := by
  obtain ⟨hx, hy, hz, _, _, _, hdu, hdv, _, _⟩ := h
  have k1 : (|c.UAvg| + 2 * c.UDeviation) / (2 * c.Dx)
      ≤ (|c.UAvg| + 2 * c.UDeviation) / c.Dx := by
    rw [div_le_div_iff₀ (by linarith) hx]
    have h0 : 0 ≤ |c.UAvg| := abs_nonneg _
    nlinarith
  have k2 : (|c.VAvg| + 2 * c.VDeviation) / (2 * c.Dy)
      ≤ (|c.VAvg| + 2 * c.VDeviation) / c.Dy := by
    rw [div_le_div_iff₀ (by linarith) hy]
    have h0 : 0 ≤ |c.VAvg| := abs_nonneg _
    nlinarith
  have k3 : |c.WAvg| / (2 * c.Dz) ≤ |c.WAvg| / c.Dz := by
    rw [div_le_div_iff₀ (by linarith) hz]
    have h0 : 0 ≤ |c.WAvg| := abs_nonneg _
    nlinarith
  unfold normMax doubleCell
  simp only
  exact max_le_max (max_le_max k1 k2) k3

/-- Helper for C6: the advective bound is monotone under extent doubling. -/
theorem qAdv_mono (c : Cell) (h : goodPos c) : qAdv c ≤ qAdv (doubleCell c) := by
  unfold qAdv
  rw [div_le_div_iff₀ (normMax_pos c h) (normMax_pos (doubleCell c) (goodPos_double c h))]
  exact mul_le_mul_of_nonneg_left (normMax_double_le c h) coef_pos.le

/-- Helper for C6: the vertical-diffusion bound is monotone under doubling. -/
theorem qVert_mono (c : Cell) (h : goodPos c) : qVert c ≤ qVert (doubleCell c) := by
  obtain ⟨_, _, hz, _, _, _, _, _, hkz, _⟩ := h
  unfold qVert doubleCell Cmax
  simp only
  rw [div_le_div_iff₀ hkz hkz]
  nlinarith [mul_pos (mul_pos hz hz) hkz]

/-- Helper for C6: the x horizontal-diffusion bound is monotone under
doubling. -/
theorem qHx_mono (c : Cell) (h : goodPos c) : qHx c ≤ qHx (doubleCell c) := by
  obtain ⟨hx, _, _, _, _, _, _, _, _, hkh⟩ := h
  unfold qHx doubleCell Cmax
  simp only
  rw [div_le_div_iff₀ hkh hkh]
  nlinarith [mul_pos (mul_pos hx hx) hkh]

/-- Helper for C6: the y horizontal-diffusion bound is monotone under
doubling. -/
theorem qHy_mono (c : Cell) (h : goodPos c) : qHy c ≤ qHy (doubleCell c) := by
  obtain ⟨_, hy, _, _, _, _, _, _, _, hkh⟩ := h
  unfold qHy doubleCell Cmax
  simp only
  rw [div_le_div_iff₀ hkh hkh]
  nlinarith [mul_pos (mul_pos hy hy) hkh]

/-- Helper for C6: one cell's `amin` of the four bounds is monotone under
doubling. -/
theorem qCell_mono (c : Cell) (h : goodPos c) : qCell c ≤ qCell (doubleCell c) :=
  min_le_min (min_le_min (qAdv_mono c h) (qVert_mono c h))
    (min_le_min (qHx_mono c h) (qHy_mono c h))

/-- Helper for C6: under `goodPos` the `F`-level per-cell bound is the finite
rational `qCell`. -/
theorem cellDtBound_fin (c : Cell) (h : goodPos c) :
    cellDtBound c = F.fin (qCell c) := by
  have hnm := normMax_pos c h
  obtain ⟨hx, hy, hz, _, _, _, _, _, hkz, hkh⟩ := h
  unfold cellDtBound qCell
  rw [advectionBound_reduce c hx hy hz, fdiv_fin_fin (ne_of_gt hnm)]
  unfold vertDiffBound horizDiffBoundX horizDiffBoundY
  rw [fdiv_fin_fin (ne_of_gt hkz), fdiv_fin_fin (ne_of_gt hkh),
    fdiv_fin_fin (ne_of_gt hkh), fmin_fin_fin, fmin_fin_fin, fmin_fin_fin]
  rfl

/-- Helper for C6: the `F`-level fold of `setTstepCFL` over good cells equals
the rational fold of `qCell`. -/
theorem foldl_fmin_fin (l : List Cell) :
    ∀ a : ℚ, (∀ x ∈ l, goodPos x) →
      l.foldl (fun dt c2 => fmin dt (cellDtBound c2)) (F.fin a)
        = F.fin (l.foldl (fun q c2 => min q (qCell c2)) a) := by
  induction l with
  | nil =>
    intro a _
    rfl
  | cons d ds ih =>
    intro a hl
    rw [List.foldl_cons, List.foldl_cons,
      cellDtBound_fin d (hl d (List.mem_cons_self d ds)), fmin_fin_fin]
    exact ih (min a (qCell d)) (fun x hx => hl x (List.mem_cons_of_mem d hx))

/-- Helper for C6: the rational running minimum is monotone when every cell's
bound and the seed are replaced by the doubled versions. -/
theorem foldl_min_double_mono (l : List Cell) :
    ∀ a b : ℚ, a ≤ b → (∀ x ∈ l, goodPos x) →
      l.foldl (fun q c2 => min q (qCell c2)) a
        ≤ (l.map doubleCell).foldl (fun q c2 => min q (qCell c2)) b := by
  induction l with
  | nil =>
    intro a b hab _
    simpa using hab
  | cons d ds ih =>
    intro a b hab hl
    rw [List.map_cons, List.foldl_cons, List.foldl_cons]
    exact ih _ _
      (min_le_min hab (qCell_mono d (hl d (List.mem_cons_self d ds))))
      (fun x hx => hl x (List.mem_cons_of_mem d hx))

/-- Claim C6: over any domain whose cells have finite positive extents, winds,
deviations and diffusivities, doubling every cell's extents (holding all other
state fixed) never decreases the global `Dt` computed by `setTstepCFL`. -/
theorem tstep_monotone_double (cells : List Cell)
    (hg : ∀ c ∈ cells, goodPos c) :
    fle (setTstepCFL cells) (setTstepCFL (cells.map doubleCell)) = true := by
  match cells with
  | [] => norm_num [setTstepCFL, fle]
  | c :: rest =>
    have hgc := hg c (List.mem_cons_self c rest)
    have hrest : ∀ x ∈ rest, goodPos x := fun x hx =>
      hg x (List.mem_cons_of_mem c hx)
    have hrestd : ∀ x ∈ rest.map doubleCell, goodPos x := by
      intro x hx
      obtain ⟨y, hy, rfl⟩ := List.mem_map.mp hx
      exact goodPos_double y (hrest y hy)
    show fle
      (rest.foldl (fun dt c2 => fmin dt (cellDtBound c2)) (cellDtBound c))
      ((rest.map doubleCell).foldl (fun dt c2 => fmin dt (cellDtBound c2))
        (cellDtBound (doubleCell c))) = true
    rw [cellDtBound_fin c hgc, cellDtBound_fin (doubleCell c) (goodPos_double c hgc),
      foldl_fmin_fin rest _ hrest, foldl_fmin_fin (rest.map doubleCell) _ hrestd]
    exact decide_eq_true
      (foldl_min_double_mono rest _ _ (qCell_mono c hgc) hrest)

/-- Witness for C6 at a one-cell domain with all quantities 1. -/
theorem tstep_monotone_double_witness :
    fle (setTstepCFL [c6cell]) (setTstepCFL ([c6cell].map doubleCell)) = true :=
  tstep_monotone_double [c6cell] (by
    intro c hc
    simp only [List.mem_singleton] at hc
    subst hc
    refine ⟨?_, ?_, ?_, ?_, ?_, ?_, ?_, ?_, ?_, ?_⟩ <;> norm_num [c6cell])

/-- Witness for C4: a domain with one calm, zero-diffusivity cell has an
infinite (excluded-from-everything) `Dt`, not an error. -/
theorem tstep_degenerate_amended_witness :
    PosOrInf (setTstepCFL [{ Dx := 1, Dy := 1, Dz := 1 }]) :=
  tstep_degenerate_amended.2.2.2.2.2 [{ Dx := 1, Dy := 1, Dz := 1 }]
    (by simp)
    (by intro c hc
        simp only [List.mem_singleton] at hc
        subst hc
        refine ⟨by norm_num, by norm_num, by norm_num, by norm_num,
          by norm_num, by norm_num, by norm_num⟩)

/-! Scheduler (C2) lemmas. -/

/-- Helper for C2: a list is pairwise related by a total relation. -/
theorem pairwise_of_all {α : Type} {R : α → α → Prop} (hR : ∀ a b, R a b) :
    ∀ l : List α, l.Pairwise R
  | [] => List.Pairwise.nil
  | a :: l => List.Pairwise.cons (fun b _ => hR a b) (pairwise_of_all hR l)

/-- Helper for C2: every event of worker `p`'s sequence is tagged `p`. -/
theorem workerSeq_worker (nprocs ncells nops p : Nat) :
    ∀ e ∈ workerSeq nprocs ncells nops p, e.1 = p := by
  intro e he
  simp only [workerSeq, List.mem_flatMap, List.mem_map] at he
  obtain ⟨k, _, i, _, rfl⟩ := he
  rfl

/-- Helper for C2: within one worker's sequence, operator indices never
decrease: the worker receives the operators in order from its own queue and
finishes each before taking the next. -/
theorem workerSeq_opsMonotone (nprocs ncells nops p : Nat) :
    (workerSeq nprocs ncells nops p).Pairwise (fun a b => a.2.1 ≤ b.2.1) := by
  unfold workerSeq
  rw [List.pairwise_flatMap]
  constructor
  · intro k _
    exact (List.pairwise_map).mpr (pairwise_of_all (fun a b => le_refl k) _)
  · refine (List.pairwise_lt_range nops).imp ?_
    intro k1 k2 hk x hx y hy
    simp only [List.mem_map] at hx hy
    obtain ⟨i1, _, rfl⟩ := hx
    obtain ⟨i2, _, rfl⟩ := hy
    exact Nat.le_of_lt hk

/-- Helper for C2: every element of an interleaving comes from one of the
source lists. -/
theorem interleave_mem {ls : List (List SchedEvent)} {zs : List SchedEvent}
    (h : Interleave ls zs) :
    ∀ e ∈ zs, ∃ (j : Nat) (hj : j < ls.length), e ∈ ls[j] := by
  induction h with
  | nil ls _ =>
    intro e he
    exact absurd he (List.not_mem_nil e)
  | cons ls i x rest zs hget _ ih =>
    obtain ⟨hi, hlsi⟩ := List.getElem?_eq_some_iff.mp hget
    intro e he
    rcases List.mem_cons.mp he with rfl | he2
    · exact ⟨i, hi, by rw [hlsi]; exact List.mem_cons_self e rest⟩
    · obtain ⟨j, hj, hmem⟩ := ih e he2
      have hj' : j < ls.length := by simpa using hj
      by_cases hij : j = i
      · subst hij
        rw [List.getElem_set_self] at hmem
        exact ⟨j, hj', by rw [hlsi]; exact List.mem_cons_of_mem x hmem⟩
      · rw [List.getElem_set_ne (fun hh => hij hh.symm)] at hmem
        exact ⟨j, hj', hmem⟩

/-- Helper for C2: membership in a list of the updated family implies
membership in the original at the same index, when the update shrinks one
list. -/
theorem mem_of_mem_set_tail {ls : List (List SchedEvent)} {i : Nat}
    {x : SchedEvent} {rest : List SchedEvent} {j : Nat} (hi : i < ls.length)
    (hj : j < ls.length) (hjs : j < (ls.set i rest).length)
    (hlsi : ls[i] = x :: rest) {a : SchedEvent}
    (ha : a ∈ (ls.set i rest)[j]) : a ∈ ls[j] := by
  by_cases hij : j = i
  · subst hij
    rw [List.getElem_set_self] at ha
    rw [hlsi]
    exact List.mem_cons_of_mem x ha
  · rwa [List.getElem_set_ne (fun hh => hij hh.symm)] at ha

/-- Helper for C2: an interleaving is pairwise related whenever each source
list is and all cross-list pairs are. -/
theorem interleave_pairwise {R : SchedEvent → SchedEvent → Prop}
    {ls : List (List SchedEvent)} {zs : List SchedEvent}
    (h : Interleave ls zs) :
    (∀ l ∈ ls, l.Pairwise R) →
    (∀ (j1 j2 : Nat) (hj1 : j1 < ls.length) (hj2 : j2 < ls.length), j1 ≠ j2 →
      ∀ a ∈ ls[j1], ∀ b ∈ ls[j2], R a b) →
    zs.Pairwise R := by
  induction h with
  | nil ls _ =>
    intro _ _
    exact List.Pairwise.nil
  | cons ls i x rest zs hget hint ih =>
    intro hin hcross
    obtain ⟨hi, hlsi⟩ := List.getElem?_eq_some_iff.mp hget
    have hxr : (x :: rest).Pairwise R := hlsi ▸ hin ls[i] (List.getElem_mem hi)
    refine List.Pairwise.cons ?_ (ih ?_ ?_)
    · intro b hb
      obtain ⟨j, hj, hmem⟩ := interleave_mem hint b hb
      have hj' : j < ls.length := by simpa using hj
      by_cases hij : j = i
      · subst hij
        rw [List.getElem_set_self] at hmem
        exact (List.pairwise_cons.mp hxr).1 b hmem
      · have hb' : b ∈ ls[j] := by
          rwa [List.getElem_set_ne (fun hh => hij hh.symm)] at hmem
        have hx' : x ∈ ls[i] := by
          rw [hlsi]
          exact List.mem_cons_self x rest
        exact hcross i j hi hj' (fun hh => hij hh.symm) x hx' b hb'
    · intro l hl
      rcases List.mem_or_eq_of_mem_set hl with h1 | h1
      · exact hin l h1
      · subst h1
        exact (List.pairwise_cons.mp hxr).2
    · intro j1 j2 hj1 hj2 hne a ha b hb
      have hj1' : j1 < ls.length := by simpa using hj1
      have hj2' : j2 < ls.length := by simpa using hj2
      exact hcross j1 j2 hj1' hj2' hne a (mem_of_mem_set_tail hi hj1' hj1 hlsi ha)
        b (mem_of_mem_set_tail hi hj2' hj2 hlsi hb)

/-- Helper for C2 (shared by the counterexample and the witness): the trace in
which worker 0 finishes both operators before worker 1 starts is a legal
interleaving of the two workers' sequences (2 workers, 2 cells, 2 operators). -/
theorem badTrace_interleave : Interleave (schedLists 2 2 2) badTrace := by
  have h : schedLists 2 2 2 = [[(0, 0, 0), (0, 1, 0)], [(1, 0, 1), (1, 1, 1)]] := by
    decide
  rw [h, badTrace]
  apply Interleave.cons _ 0 (0, 0, 0) [(0, 1, 0)] _ rfl
  apply Interleave.cons _ 0 (0, 1, 0) [] _ rfl
  apply Interleave.cons _ 1 (1, 0, 1) [(1, 1, 1)] _ rfl
  apply Interleave.cons _ 1 (1, 1, 1) [] _ rfl
  apply Interleave.nil
  decide

/-- Claim C2 counterexample: the legal execution `badTrace` of one iteration
(2 workers, 2 cells, 2 operators) is not phase-ordered: worker 0 applies
operator 1 to cell 0 before worker 1 has applied operator 0 to cell 1.  The
main loop queues both operators to every worker without any intervening
barrier (`wg.Wait()` runs only at convergence checks or termination), so
nothing prevents this order. -/
theorem scheduler_not_phase_ordered :
    Interleave (schedLists 2 2 2) badTrace ∧ ¬ phaseOrdered badTrace :=
  ⟨badTrace_interleave, by decide⟩

/-- Claim C2, amended: the guarantee that actually holds is per-worker, not
global: in every legal interleaving of one iteration's worker sequences, each
individual worker finishes operator k on all of its assigned cells before it
begins operator k+1 on any of them (its events appear with nondecreasing
operator indices), because each worker drains its own queue in order.  No
cross-worker phase ordering holds. -/
theorem scheduler_per_worker_phase_ordered (nprocs ncells nops : Nat)
    (tr : List SchedEvent)
    (h : Interleave (schedLists nprocs ncells nops) tr) :
    perWorkerOrdered tr := by
  refine interleave_pairwise h ?_ ?_
  · intro l hl
    simp only [schedLists, List.mem_map] at hl
    obtain ⟨p, _, rfl⟩ := hl
    refine List.Pairwise.imp ?_ (workerSeq_opsMonotone nprocs ncells nops p)
    intro a b hle _
    exact hle
  · intro j1 j2 hj1 hj2 hne a ha b hb
    have hja : (schedLists nprocs ncells nops)[j1]
        = workerSeq nprocs ncells nops j1 := by
      simp [schedLists]
    have hjb : (schedLists nprocs ncells nops)[j2]
        = workerSeq nprocs ncells nops j2 := by
      simp [schedLists]
    rw [hja] at ha
    rw [hjb] at hb
    intro hab
    exact absurd ((workerSeq_worker _ _ _ _ a ha).symm.trans
      (hab.trans (workerSeq_worker _ _ _ _ b hb))) hne

/-- Witness for C2's per-worker ordering theorem at the concrete trace. -/
theorem scheduler_per_worker_phase_ordered_witness : perWorkerOrdered badTrace :=
  scheduler_per_worker_phase_ordered 2 2 2 badTrace badTrace_interleave

end InMAP
